import Mathlib

/-!
Verification of the intake-and-forward bridge (buffer store, aggregator,
outbound client, sync orchestrator) against its design specification.
The definitions below are a shallow embedding of the Python sources:
`src/models.py`, `src/processor.py`, `src/database.py`,
`src/klaviyo_client.py` and `src/scheduler.py`.  Machine timestamps are
modelled as natural numbers; SQLite rows as a list of records; the
downstream HTTP API as an oracle giving one answer per attempt.
-/

/-- Embeds `IntentionType` from `src/models.py`: the record-kind tag. -/
inductive IntentionType
  | intention
  | appointment
deriving DecidableEq, Repr, Inhabited

/-- Embeds `BufferedIntention` from `src/models.py`: one buffered record.
Timestamps (`appointment_date`, `created_at`) are modelled as natural
numbers; `price` (a float only ever copied, never computed with) as an
integer. -/
structure BufferedIntention where
  id : Option Nat
  email : String
  first_name : Option String
  last_name : Option String
  phone : Option String
  intention_type : IntentionType
  salon_id : Option String
  salon_name : Option String
  stylist_id : Option String
  stylist_name : Option String
  treatment : Option String
  price : Option Int
  appointment_date : Option Nat
  campaign_source : Option String
  raw_payload : Option String
  created_at : Option Nat
  processed : Bool
deriving DecidableEq, Repr

instance : Inhabited BufferedIntention :=
  ⟨⟨none, "", none, none, none, IntentionType.intention, none, none, none,
    none, none, none, none, none, none, none, false⟩⟩

/-- Embeds `ProcessedContact` from `src/models.py`: one outbound contact. -/
structure ProcessedContact where
  email : String
  first_name : Option String
  last_name : Option String
  phone : Option String
  event_name : String
  salon_id : Option String
  salon_name : Option String
  stylist_id : Option String
  stylist_name : Option String
  treatment : Option String
  price : Option Int
  appointment_date : Option Nat
  campaign_source : Option String
  is_new_client : Option Bool
  intention_count : Nat
  appointment_count : Nat
deriving DecidableEq, Repr

/-- Python truthiness of an optional string: `None` and `""` are falsy. -/
def truthyStr : Option String → Bool
  | some s => s ≠ ""
  | none => false

/-- Python `str.lower()`: lower-case every character. -/
def pyLower (s : String) : String := String.mk (s.data.map Char.toLower)

/-- Python `str.strip()`: drop whitespace from both ends. -/
def pyStrip (s : String) : String :=
  String.mk
    (((s.data.dropWhile Char.isWhitespace).reverse.dropWhile
        Char.isWhitespace).reverse)

/-- The key normalisation `email.lower().strip()` used for grouping in
`aggregate_intentions` (`src/processor.py`). -/
def normKey (s : String) : String := pyStrip (pyLower s)

/-- The guard `if intention.email:` in `aggregate_intentions`: a record
takes part in grouping iff its email is non-empty. -/
def hasEmail (r : BufferedIntention) : Bool := r.email ≠ ""

/-- The group that `by_email` assigns to key `k`: the records of the
input, in order, whose (non-empty) email normalises to `k`. -/
def groupFor (l : List BufferedIntention) (k : String) : List BufferedIntention :=
  l.filter fun r => hasEmail r && (normKey r.email == k)

/-- Order-preserving deduplication keeping the first occurrence of each
key — the iteration order of the Python dict `by_email`. -/
def firstOccurrences : List String → List String
  | [] => []
  | k :: ks => k :: (firstOccurrences ks).filter (fun k2 => k2 ≠ k)

/-- The keys of `by_email`, in first-occurrence order. -/
def emailKeys (l : List BufferedIntention) : List String :=
  firstOccurrences ((l.filter hasEmail).map fun r => normKey r.email)

/-- Embeds `_first_non_empty` from `src/processor.py`: scan the group in
reverse input order, return the first truthy value of the field. -/
def first_non_empty (records : List BufferedIntention)
    (f : BufferedIntention → Option String) : Option String :=
  match records.reverse.find? (fun r => truthyStr (f r)) with
  | some r => f r
  | none => none

/-- The sort key `r.created_at or r.appointment_date or r.created_at`
of the `max(records, key=...)` call in `aggregate_intentions`: falls
back to `appointment_date` only when `created_at` is `None`. -/
def sortKey (r : BufferedIntention) : Option Nat :=
  match r.created_at with
  | some t => some t
  | none => r.appointment_date

/-- Strict comparison of optional timestamps; `none` is below every
`some`, mirroring that the fallback chain only matters when a key is
absent.  (Python would raise on a `None`/`datetime` comparison; the
claims below are stated under hypotheses that rule that case out.) -/
def optLt : Option Nat → Option Nat → Bool
  | none, some _ => true
  | none, none => false
  | some _, none => false
  | some a, some b => a < b

/-- The accumulator loop of Python `max(records, key=...)`: the running
best is replaced only on a strictly larger key, so the first maximal
element of the list wins ties. -/
def pyMaxAux (key : BufferedIntention → Option Nat) (best : BufferedIntention) :
    List BufferedIntention → BufferedIntention
  | [] => best
  | r :: rs => pyMaxAux key (if optLt (key best) (key r) then r else best) rs

/-- Python `max(records, key=...)` (None on an empty list, where Python
would raise; groups are never empty). -/
def pyMax (key : BufferedIntention → Option Nat) :
    List BufferedIntention → Option BufferedIntention
  | [] => none
  | x :: xs => some (pyMaxAux key x xs)

/-- The body of the per-group loop of `aggregate_intentions`
(`src/processor.py`): counts, classification, detail record selection
(`appointments[-1] if appointments else latest`) and per-field
resolution. -/
def mkContact (email : String) (records : List BufferedIntention) : ProcessedContact :=
  let intention_count :=
    (records.filter fun r => r.intention_type == IntentionType.intention).length
  let appointment_count :=
    (records.filter fun r => r.intention_type == IntentionType.appointment).length
  let event_name :=
    if appointment_count > 0 then "appointmentMade" else "appointmentIntention"
  let latest := (pyMax sortKey records).getD default
  let appointments :=
    records.filter fun r => r.intention_type == IntentionType.appointment
  let detail_record := appointments.getLast?.getD latest
  { email := email
    first_name := first_non_empty records (fun r => r.first_name)
    last_name := first_non_empty records (fun r => r.last_name)
    phone := first_non_empty records (fun r => r.phone)
    event_name := event_name
    salon_id := detail_record.salon_id
    salon_name := detail_record.salon_name
    stylist_id := detail_record.stylist_id
    stylist_name := detail_record.stylist_name
    treatment := detail_record.treatment
    price := detail_record.price
    appointment_date := detail_record.appointment_date
    campaign_source := first_non_empty records (fun r => r.campaign_source)
    is_new_client := none
    intention_count := intention_count
    appointment_count := appointment_count }

/-- Embeds `aggregate_intentions` from `src/processor.py`: early return
on empty input, group by normalised non-empty email, one contact per
group in first-occurrence key order. -/
def aggregate_intentions (intentions : List BufferedIntention) : List ProcessedContact :=
  if intentions.isEmpty then []
  else (emailKeys intentions).map fun k => mkContact k (groupFor intentions k)

/-! ## Buffer store (`src/database.py`)

The SQLite table `intentions` is modelled as a list of rows in insertion
order.  `date(created_at)` is modelled as truncation of the timestamp to
its calendar day. -/

/-- The rows of the `intentions` table, in insertion order. -/
structure Store where
  rows : List BufferedIntention
deriving DecidableEq, Repr

/-- SQLite `date(created_at)`: the calendar day of a creation instant
(timestamps counted in seconds). -/
def dateOf (t : Nat) : Nat := t / 86400

/-- The `date(created_at) = ?` predicate of `get_unprocessed_intentions`;
a row with no creation timestamp matches no date (SQL `NULL`). -/
def matchesDate (r : BufferedIntention) (d : Nat) : Bool :=
  match r.created_at with
  | some t => dateOf t == d
  | none => false

/-- Sort key for `ORDER BY created_at ASC`. -/
def creationKey (r : BufferedIntention) : Nat := r.created_at.getD 0

/-- Insertion step of the model of `ORDER BY created_at ASC`. -/
def insertByCreated (r : BufferedIntention) :
    List BufferedIntention → List BufferedIntention
  | [] => [r]
  | x :: xs =>
    if creationKey r ≤ creationKey x then r :: x :: xs
    else x :: insertByCreated r xs

/-- The model of `ORDER BY created_at ASC` (an insertion sort). -/
def sortByCreated (l : List BufferedIntention) : List BufferedIntention :=
  l.foldr insertByCreated []

/-- Embeds `get_unprocessed_intentions` from `src/database.py`: all rows
with `processed = 0`, optionally restricted to one creation date, ordered
by creation timestamp ascending. -/
def get_unprocessed_intentions (s : Store) (target_date : Option Nat) :
    List BufferedIntention :=
  match target_date with
  | some d => sortByCreated (s.rows.filter fun r => !r.processed && matchesDate r d)
  | none => sortByCreated (s.rows.filter fun r => !r.processed)

/-- Whether a row's id is one of the listed ids (`id IN (...)`). -/
def idListed (ids : List Nat) (r : BufferedIntention) : Bool :=
  match r.id with
  | some i => ids.contains i
  | none => false

/-- The per-row effect of the `UPDATE intentions SET processed = 1` of
`mark_as_processed`. -/
def markRow (ids : List Nat) (r : BufferedIntention) : BufferedIntention :=
  if idListed ids r then { r with processed := true } else r

/-- Embeds `mark_as_processed` from `src/database.py`: early return on an
empty id list, otherwise flip `processed` for every listed row. -/
def mark_as_processed (s : Store) (ids : List Nat) : Store :=
  if ids.isEmpty then s else ⟨s.rows.map (markRow ids)⟩

/-! ## Outbound client (`src/klaviyo_client.py`)

Each HTTP attempt is answered by an oracle `responses : Nat → Attempt`
(attempt `n` receives `responses n`).  A response carries its status code
and, abstractly, the profile id its JSON body would yield; the JSON
payloads the client sends are assembled from the contact but do not
influence any returned value, so their assembly is not replayed here. -/

/-- The operating mode from `src/config.py`. -/
inductive AppMode
  | simple
  | extended
deriving DecidableEq, Repr

/-- The client configuration read from settings in `KlaviyoClient.__init__`;
`list_id` is a plain string, empty when not configured. -/
structure ClientConfig where
  list_id : String
  mode : AppMode
deriving DecidableEq, Repr

/-- What one HTTP attempt comes back with: a status code together with
the profile id its JSON body yields (if any), or a connection error
(`httpx.RequestError`). -/
inductive Attempt
  | status (code : Nat) (data_id : Option String)
  | connError
deriving DecidableEq, Repr

/-- The errors `_request` can raise: `httpx.HTTPStatusError` from
`raise_for_status`, or a connection error. -/
inductive ReqError
  | httpStatus (code : Nat)
  | connection
deriving DecidableEq, Repr

/-- `MAX_RETRIES` from `src/klaviyo_client.py`. -/
def MAX_RETRIES : Nat := 3

namespace KlaviyoClient

/-- The retry loop of `_request`: `made` attempts already made,
`remaining` loop iterations left.  A 429 sleeps and retries; a status
below 400 returns the body (`none` for 204); any other status or a
connection error retries, raising on the last iteration; when the loop
runs out (only reachable through rate limits) the function returns
`None` without raising. -/
def requestAux (responses : Nat → Attempt) (made : Nat) :
    Nat → Except ReqError (Option (Option String)) × Nat
  | 0 => (Except.ok none, made)
  | remaining + 1 =>
    match responses made with
    | Attempt.status code data_id =>
      if code == 429 then requestAux responses (made + 1) remaining
      else if code < 400 then
        if code == 204 then (Except.ok none, made + 1)
        else (Except.ok (some data_id), made + 1)
      else if remaining == 0 then (Except.error (ReqError.httpStatus code), made + 1)
      else requestAux responses (made + 1) remaining
    | Attempt.connError =>
      if remaining == 0 then (Except.error ReqError.connection, made + 1)
      else requestAux responses (made + 1) remaining

/-- Embeds `KlaviyoClient._request`: the result (the parsed JSON body as
the profile id it yields, `none` when no body came back) paired with the
number of HTTP attempts made. -/
def request (responses : Nat → Attempt) :
    Except ReqError (Option (Option String)) × Nat :=
  requestAux responses 0 MAX_RETRIES

/-- The profile id `upsert_profile` extracts:
`result.get("data", {}).get("id")` when `result` is truthy. -/
def profileIdOf (result : Except ReqError (Option (Option String))) : Option String :=
  match result with
  | Except.ok (some data_id) => data_id
  | _ => none

/-- Embeds `KlaviyoClient.upsert_profile`: one `_request`, then extract
the profile id from the body. -/
def upsert_profile (responses : Nat → Attempt) : Except ReqError (Option String) :=
  match (request responses).1 with
  | Except.error e => Except.error e
  | Except.ok result =>
    Except.ok (match result with
      | some data_id => data_id
      | none => none)

/-- Embeds `KlaviyoClient.add_to_list`: silently skipped when no list id
is configured, otherwise one `_request` whose body is discarded. -/
def add_to_list (cfg : ClientConfig) (responses : Nat → Attempt) :
    Except ReqError Unit :=
  if cfg.list_id == "" then Except.ok ()
  else
    match (request responses).1 with
    | Except.error e => Except.error e
    | Except.ok _ => Except.ok ()

/-- Embeds `KlaviyoClient.create_event`: a no-op outside extended mode,
otherwise one `_request` whose body is discarded. -/
def create_event (cfg : ClientConfig) (responses : Nat → Attempt) :
    Except ReqError Unit :=
  if cfg.mode != AppMode.extended then Except.ok ()
  else
    match (request responses).1 with
    | Except.error e => Except.error e
    | Except.ok _ => Except.ok ()

/-- The body of the `try:` block of `process_contact`: upsert, then — only
for a truthy profile id — list add, then event. -/
def forwardSteps (cfg : ClientConfig) (r1 r2 r3 : Nat → Attempt) :
    Except ReqError Unit :=
  match upsert_profile r1 with
  | Except.error e => Except.error e
  | Except.ok profile_id =>
    match (if truthyStr profile_id then add_to_list cfg r2 else Except.ok ()) with
    | Except.error e => Except.error e
    | Except.ok _ => create_event cfg r3

/-- Embeds `KlaviyoClient.process_contact`: the `try/except` boundary
that converts any raised error into `False` and everything else into
`True`.  `r1`, `r2`, `r3` are the response oracles of the upsert, list
add and event requests. -/
def process_contact (cfg : ClientConfig) (r1 r2 r3 : Nat → Attempt) : Bool :=
  match forwardSteps cfg r1 r2 r3 with
  | Except.ok _ => true
  | Except.error _ => false

end KlaviyoClient

/-! ## Sync orchestrator (`src/scheduler.py`)

`run_daily_sync` is embedded over the store model; the outcome of each
`klaviyo_client.process_contact` call is given by an oracle
`fwd : ProcessedContact → Bool` (it always returns a boolean, as proved
at the client's boundary).  `downstream_calls` and `mark_calls` record
how many `process_contact` and `mark_as_processed` calls the run makes;
they instrument the control flow and carry no other behaviour. -/

/-- The result dictionary of `run_daily_sync`. -/
structure SyncResult where
  date : Nat
  intentions_found : Nat
  contacts_processed : Nat
  success : Nat
  failed : Nat
deriving DecidableEq, Repr

/-- One run's outcome: the store afterwards, the returned result, and
the instrumented call counts. -/
structure SyncRun where
  store : Store
  result : SyncResult
  downstream_calls : Nat
  mark_calls : Nat
deriving DecidableEq, Repr

/-- Embeds `run_daily_sync` from `src/scheduler.py`: default the target
date to yesterday, fetch the unprocessed records, return zeroes at once
when there are none; otherwise aggregate, forward every contact tallying
successes and failures, then mark all fetched ids processed. -/
def run_daily_sync (s : Store) (today : Nat) (target_date : Option Nat)
    (fwd : ProcessedContact → Bool) : SyncRun :=
  let d := target_date.getD (today - 1)
  let intentions := get_unprocessed_intentions s (some d)
  if intentions.isEmpty then
    { store := s
      result := { date := d, intentions_found := 0, contacts_processed := 0,
                  success := 0, failed := 0 }
      downstream_calls := 0
      mark_calls := 0 }
  else
    let contacts := aggregate_intentions intentions
    let success_count := (contacts.filter fun c => fwd c).length
    let failed_count := (contacts.filter fun c => !(fwd c)).length
    let all_ids := intentions.filterMap (fun i => i.id)
    { store := mark_as_processed s all_ids
      result := { date := d, intentions_found := intentions.length,
                  contacts_processed := contacts.length,
                  success := success_count, failed := failed_count }
      downstream_calls := contacts.length
      mark_calls := 1 }

/-! ## Property vocabulary and concrete sample data -/

/-- A rate-limit answer (HTTP 429), whatever its body. -/
def isRateLimit : Attempt → Bool
  | Attempt.status code _ => code == 429
  | Attempt.connError => false

/-- Whether a `_request` outcome is a success (no error raised). -/
def reqOk (e : Except ReqError (Option (Option String))) : Bool :=
  match e with
  | Except.ok _ => true
  | Except.error _ => false

/-- The field-resolution property of the specification: `v` is absent
when no record of the group has a non-empty value for the field, and
otherwise `v` is the value of a record of the group that has a non-empty
value and whose creation timestamp is maximal among those. -/
def resolvedFrom (g : List BufferedIntention) (f : BufferedIntention → Option String)
    (v : Option String) : Prop :=
  (v = none ∧ ∀ r ∈ g, truthyStr (f r) = false)
  ∨ (∃ r ∈ g, truthyStr (f r) = true ∧ v = f r
      ∧ ∀ r2 ∈ g, truthyStr (f r2) = true → creationKey r2 ≤ creationKey r)

/-- The contact's business-context fields all equal those of record `r`. -/
def detailFieldsEq (c : ProcessedContact) (r : BufferedIntention) : Prop :=
  c.salon_id = r.salon_id ∧ c.salon_name = r.salon_name
  ∧ c.stylist_id = r.stylist_id ∧ c.stylist_name = r.stylist_name
  ∧ c.treatment = r.treatment ∧ c.price = r.price
  ∧ c.appointment_date = r.appointment_date

/-- A buffered record with every optional field absent. -/
def blankRecord : BufferedIntention :=
  ⟨none, "", none, none, none, IntentionType.intention, none, none, none,
   none, none, none, none, none, none, none, false⟩

/-- Sample: a lone appointment record. -/
def sampleAppt : BufferedIntention :=
  { blankRecord with
      id := some 1, email := "a@x.com",
      intention_type := IntentionType.appointment,
      treatment := some "cut", created_at := some 10 }

/-- Sample: an older record carrying only a phone number. -/
def samplePhoneRec : BufferedIntention :=
  { blankRecord with
      id := some 1, email := "a@x.com", phone := some "+31600000000",
      created_at := some 1 }

/-- Sample: a newer record carrying only a first name. -/
def sampleNameRec : BufferedIntention :=
  { blankRecord with
      id := some 2, email := "a@x.com", first_name := some "Ann",
      created_at := some 2 }

/-- Sample: an upper-cased variant of the same identity. -/
def sampleUpperRec : BufferedIntention :=
  { blankRecord with
      id := some 3, email := "A@x.com",
      intention_type := IntentionType.appointment, created_at := some 3 }

/-- Tie counterexample, earlier record: timestamp 5, salon S1. -/
def cexTieR1 : BufferedIntention :=
  { blankRecord with
      id := some 1, email := "a@x.com", salon_id := some "S1",
      created_at := some 5 }

/-- Tie counterexample, later record: the same timestamp 5, salon S2. -/
def cexTieR2 : BufferedIntention :=
  { blankRecord with
      id := some 2, email := "a@x.com", salon_id := some "S2",
      created_at := some 5 }

/-- Sample: two intention records with ascending timestamps. -/
def sampleAscR1 : BufferedIntention :=
  { blankRecord with
      id := some 1, email := "a@x.com", salon_id := some "S1",
      created_at := some 1 }

/-- Sample: the later of the two ascending intention records. -/
def sampleAscR2 : BufferedIntention :=
  { blankRecord with
      id := some 2, email := "a@x.com", salon_id := some "S2",
      created_at := some 2 }

/-- A downstream oracle that answers every attempt with HTTP 429. -/
def always429 : Nat → Attempt := fun _ => Attempt.status 429 none

/-- A sample extended-mode configuration with a configured list. -/
def sampleCfg : ClientConfig := ⟨"LIST123", AppMode.extended⟩

/-- Sample store: one unprocessed row of day 0 and one processed row. -/
def sampleStore : Store :=
  ⟨[{ blankRecord with id := some 1, email := "a@x.com", created_at := some 7 },
    { blankRecord with
        id := some 2
        email := "b@x.com"
        created_at := some 9
        processed := true }]⟩

/-! ## Helper lemmas -/

lemma markRow_id (ids : List Nat) (r : BufferedIntention) :
    (markRow ids r).id = r.id := by
  unfold markRow
  split <;> rfl

lemma markRow_idem (ids : List Nat) (r : BufferedIntention) :
    markRow ids (markRow ids r) = markRow ids r := by
  unfold markRow
  rcases h : idListed ids r with _ | _
  · simp [h]
  · have h2 : idListed ids { r with processed := true } = idListed ids r := by
      unfold idListed
      rfl
    simp [h, h2]

lemma mem_insertByCreated {a r : BufferedIntention} :
    ∀ {l : List BufferedIntention},
      a ∈ insertByCreated r l ↔ a = r ∨ a ∈ l := by
  intro l
  induction l with
  | nil => simp [insertByCreated]
  | cons x xs ih =>
    unfold insertByCreated
    split
    · simp
    · simp only [List.mem_cons, ih]
      tauto

lemma mem_sortByCreated {a : BufferedIntention} :
    ∀ {l : List BufferedIntention}, a ∈ sortByCreated l ↔ a ∈ l := by
  intro l
  induction l with
  | nil => simp [sortByCreated]
  | cons x xs ih =>
    simp only [sortByCreated, List.foldr_cons, List.mem_cons]
    rw [show xs.foldr insertByCreated [] = sortByCreated xs from rfl] at *
    rw [mem_insertByCreated, ih]

lemma mem_get_unprocessed {s : Store} {d : Nat} {r : BufferedIntention} :
    r ∈ get_unprocessed_intentions s (some d) ↔
      r ∈ s.rows ∧ r.processed = false ∧ matchesDate r d = true := by
  unfold get_unprocessed_intentions
  rw [mem_sortByCreated, List.mem_filter]
  simp [Bool.and_eq_true, Bool.not_eq_true', and_assoc]

/-- C8: marking the same id set twice leaves the store as one call does;
an empty id set is a no-op leaving the store untouched; each call keeps
every non-flag field of every row and every unlisted row exactly as it
was, and sets the flag of every listed row. -/
theorem mark_as_processed_idempotent_frame (s : Store) (ids : List Nat) :
    mark_as_processed (mark_as_processed s ids) ids = mark_as_processed s ids
    ∧ mark_as_processed s [] = s
    ∧ (mark_as_processed s ids).rows.length = s.rows.length
    ∧ ∀ i r r2, s.rows.get? i = some r →
        (mark_as_processed s ids).rows.get? i = some r2 →
        (r2.id = r.id ∧ r2.email = r.email ∧ r2.first_name = r.first_name
          ∧ r2.last_name = r.last_name ∧ r2.phone = r.phone
          ∧ r2.intention_type = r.intention_type ∧ r2.salon_id = r.salon_id
          ∧ r2.salon_name = r.salon_name ∧ r2.stylist_id = r.stylist_id
          ∧ r2.stylist_name = r.stylist_name ∧ r2.treatment = r.treatment
          ∧ r2.price = r.price ∧ r2.appointment_date = r.appointment_date
          ∧ r2.campaign_source = r.campaign_source
          ∧ r2.raw_payload = r.raw_payload ∧ r2.created_at = r.created_at)
        ∧ (idListed ids r = true → r2.processed = true)
        ∧ (idListed ids r = false → r2 = r) := by
  rcases he : ids.isEmpty with _ | _
  · refine ⟨?_, by simp [mark_as_processed], ?_, ?_⟩
    · have hinner : mark_as_processed s ids = ⟨s.rows.map (markRow ids)⟩ := by
        simp [mark_as_processed, he]
      rw [hinner]
      simp only [mark_as_processed, he, Bool.false_eq_true, if_false]
      rw [List.map_map]
      congr 1
      exact List.map_congr_left fun r _ => markRow_idem ids r
    · simp [mark_as_processed, he]
    · intro i r r2 hr hr2
      simp only [mark_as_processed, he, Bool.false_eq_true, if_false,
        List.get?_map, hr, Option.map_some'] at hr2
      have hr2' : r2 = markRow ids r := by
        exact (Option.some.injEq _ _).mp hr2.symm
      subst hr2'
      unfold markRow
      rcases hl : idListed ids r with _ | _ <;> simp [hl]
  · have hids : ids = [] := List.isEmpty_iff.mp he
    subst hids
    refine ⟨by simp [mark_as_processed], by simp [mark_as_processed],
      by simp [mark_as_processed], ?_⟩
    intro i r r2 hr hr2
    simp only [mark_as_processed, List.isEmpty_nil, if_true] at hr2
    rw [hr] at hr2
    have hr2' : r2 = r := (Option.some.injEq _ _).mp hr2.symm
    subst hr2'
    refine ⟨by simp, ?_, fun _ => rfl⟩
    intro habs
    unfold idListed at habs
    split at habs <;> simp_all

/-- C8 witness: the properties at a concrete two-row store and id set. -/
theorem mark_as_processed_idempotent_frame_witness :
    mark_as_processed (mark_as_processed sampleStore [1]) [1]
        = mark_as_processed sampleStore [1]
    ∧ mark_as_processed sampleStore [] = sampleStore
    ∧ (mark_as_processed sampleStore [1]).rows.length = sampleStore.rows.length
    ∧ ∀ i r r2, sampleStore.rows.get? i = some r →
        (mark_as_processed sampleStore [1]).rows.get? i = some r2 →
        (r2.id = r.id ∧ r2.email = r.email ∧ r2.first_name = r.first_name
          ∧ r2.last_name = r.last_name ∧ r2.phone = r.phone
          ∧ r2.intention_type = r.intention_type ∧ r2.salon_id = r.salon_id
          ∧ r2.salon_name = r.salon_name ∧ r2.stylist_id = r.stylist_id
          ∧ r2.stylist_name = r.stylist_name ∧ r2.treatment = r.treatment
          ∧ r2.price = r.price ∧ r2.appointment_date = r.appointment_date
          ∧ r2.campaign_source = r.campaign_source
          ∧ r2.raw_payload = r.raw_payload ∧ r2.created_at = r.created_at)
        ∧ (idListed [1] r = true → r2.processed = true)
        ∧ (idListed [1] r = false → r2 = r) :=
  mark_as_processed_idempotent_frame sampleStore [1]

/-- C9: with no unprocessed record for the target date, `run_daily_sync`
returns at once with all-zero counts, an unchanged store, no downstream
call and no mark-processed call. -/
theorem run_daily_sync_empty_day (s : Store) (today d : Nat)
    (fwd : ProcessedContact → Bool)
    (h : get_unprocessed_intentions s (some d) = []) :
    run_daily_sync s today (some d) fwd =
      { store := s
        result := { date := d, intentions_found := 0, contacts_processed := 0,
                    success := 0, failed := 0 }
        downstream_calls := 0
        mark_calls := 0 } := by
  simp [run_daily_sync, h]

/-- C9 witness: the empty-day result at a concrete store and date. -/
theorem run_daily_sync_empty_day_witness :
    run_daily_sync ⟨[]⟩ 5 (some 3) (fun _ => true) =
      { store := ⟨[]⟩
        result := { date := 3, intentions_found := 0, contacts_processed := 0,
                    success := 0, failed := 0 }
        downstream_calls := 0
        mark_calls := 0 } :=
  run_daily_sync_empty_day ⟨[]⟩ 5 3 (fun _ => true) rfl

/-- C1: on a non-empty fetch, whatever each forward call returns, every
row sharing an id with a fetched record ends up processed, and a fresh
query for unprocessed records of the target date afterwards is empty. -/
theorem run_daily_sync_drains (s : Store) (today d : Nat)
    (fwd : ProcessedContact → Bool)
    (hne : get_unprocessed_intentions s (some d) ≠ [])
    (hids : ∀ r ∈ get_unprocessed_intentions s (some d), r.id.isSome = true) :
    (∀ r2 ∈ (run_daily_sync s today (some d) fwd).store.rows,
        (∃ r ∈ get_unprocessed_intentions s (some d), r.id = r2.id) →
          r2.processed = true)
    ∧ get_unprocessed_intentions (run_daily_sync s today (some d) fwd).store
        (some d) = [] := by
  have hbranch : (run_daily_sync s today (some d) fwd).store =
      mark_as_processed s
        ((get_unprocessed_intentions s (some d)).filterMap (fun i => i.id)) := by
    simp only [run_daily_sync, Option.getD_some]
    rw [if_neg (by simpa [List.isEmpty_iff] using hne)]
  set ints := get_unprocessed_intentions s (some d) with hints
  set ids := ints.filterMap (fun i => i.id) with hidsdef
  have hidsne : ids.isEmpty = false := by
    rcases List.exists_mem_of_ne_nil ints hne with ⟨r, hr⟩
    rcases Option.isSome_iff_exists.mp (hids r hr) with ⟨i, hi⟩
    have : i ∈ ids := List.mem_filterMap.mpr ⟨r, hr, hi⟩
    rcases hl : ids with _ | ⟨x, xs⟩
    · rw [hl] at this
      simp at this
    · rfl
  have hrows : (mark_as_processed s ids).rows = s.rows.map (markRow ids) := by
    simp [mark_as_processed, hidsne]
  have hmarked : ∀ r2 ∈ (mark_as_processed s ids).rows,
      (∃ r ∈ ints, r.id = r2.id) → r2.processed = true := by
    intro r2 hr2 ⟨r, hr, hid⟩
    rw [hrows] at hr2
    rcases List.mem_map.mp hr2 with ⟨r0, _, hr0eq⟩
    rcases Option.isSome_iff_exists.mp (hids r hr) with ⟨i, hi⟩
    have hiin : i ∈ ids := List.mem_filterMap.mpr ⟨r, hr, hi⟩
    have hr2id : r2.id = r0.id := by rw [← hr0eq, markRow_id]
    have hr0id : r0.id = some i := by rw [← hr2id, ← hid, hi]
    have hlisted : idListed ids r0 = true := by
      unfold idListed
      rw [hr0id]
      simpa using hiin
    rw [← hr0eq]
    unfold markRow
    rw [hlisted]
    simp
  constructor
  · rw [hbranch]
    exact hmarked
  · rw [hbranch]
    have hfil : (mark_as_processed s ids).rows.filter
        (fun r => !r.processed && matchesDate r d) = [] := by
      rw [List.filter_eq_nil_iff]
      intro a ha
      intro hpass
      simp only [Bool.and_eq_true, Bool.not_eq_true'] at hpass
      have hnp : a.processed = false := hpass.1
      have hmd : matchesDate a d = true := hpass.2
      rw [hrows] at ha
      rcases List.mem_map.mp ha with ⟨r0, hr0mem, hr0eq⟩
      rcases hl0 : idListed ids r0 with _ | _
      · have haeq : a = r0 := by
          rw [← hr0eq]
          unfold markRow
          rw [hl0]
          simp
        have hfetched : r0 ∈ ints := by
          rw [hints]
          rw [mem_get_unprocessed]
          exact ⟨hr0mem, by rw [← haeq]; exact hnp, by rw [← haeq]; exact hmd⟩
        rcases Option.isSome_iff_exists.mp (hids r0 hfetched) with ⟨i, hi⟩
        have hiin : i ∈ ids := List.mem_filterMap.mpr ⟨r0, hfetched, hi⟩
        have : idListed ids r0 = true := by
          unfold idListed
          rw [hi]
          simpa using hiin
        rw [hl0] at this
        exact absurd this (by simp)
      · have : a.processed = true := by
          rw [← hr0eq]
          unfold markRow
          rw [hl0]
          simp
        rw [this] at hnp
        exact absurd hnp (by simp)
    show sortByCreated ((mark_as_processed s ids).rows.filter
      (fun r => !r.processed && matchesDate r d)) = []
    rw [hfil]
    rfl

/-- C1 witness: the drain at a concrete one-row store for day 0. -/
theorem run_daily_sync_drains_witness :
    (∀ r2 ∈ (run_daily_sync sampleStore 3 (some 0) (fun _ => false)).store.rows,
        (∃ r ∈ get_unprocessed_intentions sampleStore (some 0), r.id = r2.id) →
          r2.processed = true)
    ∧ get_unprocessed_intentions
        (run_daily_sync sampleStore 3 (some 0) (fun _ => false)).store
        (some 0) = [] :=
  run_daily_sync_drains sampleStore 3 0 (fun _ => false) (by decide) (by decide)

lemma requestAux_rate_limited (responses : Nat → Attempt)
    (h : ∀ n, isRateLimit (responses n) = true) :
    ∀ remaining made, KlaviyoClient.requestAux responses made remaining
      = (Except.ok none, made + remaining) := by
  intro remaining
  induction remaining with
  | zero => intro made; rfl
  | succ rem ih =>
    intro made
    have hm := h made
    unfold KlaviyoClient.requestAux
    rcases hr : responses made with ⟨code, data_id⟩ | _
    · rw [hr] at hm
      simp only [isRateLimit] at hm
      simp only [hr, hm, if_true]
      rw [ih (made + 1)]
      simp only [Prod.mk.injEq, true_and]
      omega
    · rw [hr] at hm
      simp only [isRateLimit] at hm
      exact absurd hm (by simp)

/-- C2 counterexample: with every attempt answered by HTTP 429, the
client stops after exactly `MAX_RETRIES` attempts, but the call does
not fail — `_request` falls out of its loop and returns `None` without
raising, and `process_contact` consequently reports success (`True`),
contradicting the claim that the call is then reported as a failure. -/
theorem request_rate_limit_cex :
    (KlaviyoClient.request always429).2 = MAX_RETRIES
    ∧ (KlaviyoClient.request always429).1 = Except.ok none
    ∧ reqOk (KlaviyoClient.request always429).1 = true
    ∧ KlaviyoClient.process_contact sampleCfg always429 always429 always429
        = true :=
  ⟨rfl, rfl, rfl, rfl⟩

/-- C2 as amended: against an always-rate-limited downstream the client
makes exactly `MAX_RETRIES` attempts and then gives up, but it reports
no failure: `_request` returns an empty result without raising and the
per-contact forward reports success. -/
theorem request_rate_limit_bound (responses : Nat → Attempt)
    (cfg : ClientConfig)
    (h : ∀ n, isRateLimit (responses n) = true) :
    KlaviyoClient.request responses = (Except.ok none, MAX_RETRIES)
    ∧ KlaviyoClient.process_contact cfg responses responses responses = true := by
  have hreq : KlaviyoClient.request responses = (Except.ok none, MAX_RETRIES) := by
    unfold KlaviyoClient.request
    rw [requestAux_rate_limited responses h MAX_RETRIES 0]
    simp
  refine ⟨hreq, ?_⟩
  have hup : KlaviyoClient.upsert_profile responses = Except.ok none := by
    simp [KlaviyoClient.upsert_profile, hreq]
  have hev : KlaviyoClient.create_event cfg responses = Except.ok () := by
    unfold KlaviyoClient.create_event
    rcases hmode : cfg.mode == AppMode.extended with _ | _
    · simp [bne, hmode]
    · simp [bne, hmode, hreq]
  simp [KlaviyoClient.process_contact, KlaviyoClient.forwardSteps, hup, hev,
    truthyStr]

/-- C2 amended witness: the bound at the all-429 oracle and a concrete
configuration. -/
theorem request_rate_limit_bound_witness :
    KlaviyoClient.request always429 = (Except.ok none, MAX_RETRIES)
    ∧ KlaviyoClient.process_contact sampleCfg always429 always429 always429
        = true :=
  request_rate_limit_bound always429 sampleCfg (fun _ => rfl)

/-- C7: `process_contact` returns `False` exactly when a step that was
actually performed raised after its retries (the upsert, the list add
when a truthy profile id was obtained and a list is configured, or the
event when the deployment is in extended mode); in every other case —
including skipped list adds and skipped events — it returns `True`.
Being a total boolean function of its inputs, no error ever escapes
to the orchestrator. -/
theorem process_contact_boundary (cfg : ClientConfig) (r1 r2 r3 : Nat → Attempt) :
    KlaviyoClient.process_contact cfg r1 r2 r3 = true ↔
      (reqOk (KlaviyoClient.request r1).1 = true
       ∧ (truthyStr (KlaviyoClient.profileIdOf (KlaviyoClient.request r1).1) = true →
            cfg.list_id ≠ "" → reqOk (KlaviyoClient.request r2).1 = true)
       ∧ (cfg.mode = AppMode.extended → reqOk (KlaviyoClient.request r3).1 = true)) := by
  unfold KlaviyoClient.process_contact KlaviyoClient.forwardSteps
  unfold KlaviyoClient.upsert_profile KlaviyoClient.add_to_list
  unfold KlaviyoClient.create_event KlaviyoClient.profileIdOf reqOk
  rcases h1 : (KlaviyoClient.request r1).1 with e1 | res
  · simp
  · rcases res with _ | pid
    · have hpt : truthyStr (none : Option String) = false := rfl
      simp only [hpt, Bool.false_eq_true, false_implies, true_and, if_false]
      by_cases hm : cfg.mode = AppMode.extended
      · simp only [bne, hm, beq_self_eq_true, Bool.not_true, Bool.false_eq_true,
          if_false]
        rcases h3 : (KlaviyoClient.request r3).1 with e3 | res3 <;> simp [hm]
      · have hbne : (cfg.mode != AppMode.extended) = true := by
          simp [bne, hm]
        simp [hbne, hm]
    · rcases hpt : truthyStr pid with _ | _
      · simp only [hpt, Bool.false_eq_true, false_implies, true_and, if_false]
        by_cases hm : cfg.mode = AppMode.extended
        · simp only [bne, hm, beq_self_eq_true, Bool.not_true, Bool.false_eq_true,
            if_false]
          rcases h3 : (KlaviyoClient.request r3).1 with e3 | res3 <;> simp [hm]
        · have hbne : (cfg.mode != AppMode.extended) = true := by
            simp [bne, hm]
          simp [hbne, hm]
      · simp only [hpt, if_true]
        by_cases hl : cfg.list_id = ""
        · have hlb : (cfg.list_id == "") = true := by simp [hl]
          simp only [hlb, if_true, hl]
          by_cases hm : cfg.mode = AppMode.extended
          · simp only [bne, hm, beq_self_eq_true, Bool.not_true, Bool.false_eq_true,
              if_false]
            rcases h3 : (KlaviyoClient.request r3).1 with e3 | res3 <;> simp [hm, hl]
          · have hbne : (cfg.mode != AppMode.extended) = true := by
              simp [bne, hm]
            simp [hbne, hm, hl]
        · have hlb : (cfg.list_id == "") = false := by simp [hl]
          simp only [hlb, Bool.false_eq_true, if_false]
          rcases h2 : (KlaviyoClient.request r2).1 with e2 | res2
          · simp [hl]
          · simp only [ne_eq, hl, not_false_eq_true, forall_const, true_implies,
              true_and]
            by_cases hm : cfg.mode = AppMode.extended
            · simp only [bne, hm, beq_self_eq_true, Bool.not_true,
                Bool.false_eq_true, if_false]
              rcases h3 : (KlaviyoClient.request r3).1 with e3 | res3 <;> simp [hm]
            · have hbne : (cfg.mode != AppMode.extended) = true := by
                simp [bne, hm]
              simp [hbne, hm]

lemma mem_firstOccurrences {a : String} :
    ∀ {ks : List String}, a ∈ firstOccurrences ks ↔ a ∈ ks := by
  intro ks
  induction ks with
  | nil => simp [firstOccurrences]
  | cons k ks ih =>
    unfold firstOccurrences
    simp only [List.mem_cons, List.mem_filter, ih]
    by_cases hak : a = k
    · simp [hak]
    · simp [hak]

lemma nodup_firstOccurrences :
    ∀ (ks : List String), (firstOccurrences ks).Nodup := by
  intro ks
  induction ks with
  | nil => simp [firstOccurrences]
  | cons k ks ih =>
    unfold firstOccurrences
    refine List.Nodup.cons ?_ (List.Nodup.filter _ ih)
    intro hk
    have := (List.mem_filter.mp hk).2
    simp at this

lemma mem_groupFor {l : List BufferedIntention} {k : String} {r : BufferedIntention} :
    r ∈ groupFor l k ↔ r ∈ l ∧ r.email ≠ "" ∧ normKey r.email = k := by
  unfold groupFor
  rw [List.mem_filter]
  simp [hasEmail]

lemma mem_emailKeys {l : List BufferedIntention} {k : String} :
    k ∈ emailKeys l ↔ ∃ r ∈ l, r.email ≠ "" ∧ normKey r.email = k := by
  unfold emailKeys
  rw [mem_firstOccurrences, List.mem_map]
  constructor
  · rintro ⟨r, hr, hk⟩
    have := List.mem_filter.mp hr
    exact ⟨r, this.1, by simpa [hasEmail] using this.2, hk⟩
  · rintro ⟨r, hr, hne, hk⟩
    exact ⟨r, List.mem_filter.mpr ⟨hr, by simpa [hasEmail] using hne⟩, hk⟩

lemma mem_aggregate {l : List BufferedIntention} {c : ProcessedContact} :
    c ∈ aggregate_intentions l ↔
      ∃ k ∈ emailKeys l, c = mkContact k (groupFor l k) := by
  unfold aggregate_intentions
  rcases he : l.isEmpty with _ | _
  · simp only [Bool.false_eq_true, if_false, List.mem_map]
    constructor
    · rintro ⟨k, hk, hc⟩
      exact ⟨k, hk, hc.symm⟩
    · rintro ⟨k, hk, hc⟩
      exact ⟨k, hk, hc.symm⟩
  · have : l = [] := List.isEmpty_iff.mp he
    subst this
    simp [emailKeys, firstOccurrences]

lemma mkContact_email (k : String) (g : List BufferedIntention) :
    (mkContact k g).email = k := rfl

lemma groupFor_self {l : List BufferedIntention} {k : String} (hk : k ∈ emailKeys l) :
    groupFor l k ≠ [] := by
  rcases mem_emailKeys.mp hk with ⟨r, hr, hne, hkey⟩
  intro habs
  have : r ∈ groupFor l k := mem_groupFor.mpr ⟨hr, hne, hkey⟩
  rw [habs] at this
  simp at this

/-- C10: records whose identity key is empty are silently dropped —
the aggregate output over any input equals the output over the input
restricted to records with a non-empty email, and an input consisting
only of empty-keyed records yields the empty output; the function is
total, so such records never cause an error. -/
theorem aggregate_ignores_empty_email (l : List BufferedIntention) :
    aggregate_intentions l = aggregate_intentions (l.filter hasEmail)
    ∧ ((∀ r ∈ l, r.email = "") → aggregate_intentions l = []) := by
  have hfilfil : (l.filter hasEmail).filter hasEmail = l.filter hasEmail := by
    rw [List.filter_filter]
    exact List.filter_congr fun r _ => by rcases h : hasEmail r with _ | _ <;> simp [h]
  have hkeys : emailKeys (l.filter hasEmail) = emailKeys l := by
    unfold emailKeys
    rw [hfilfil]
  have hgroups : ∀ k, groupFor (l.filter hasEmail) k = groupFor l k := by
    intro k
    unfold groupFor
    rw [List.filter_filter]
    exact List.filter_congr fun r _ => by
      rcases h : hasEmail r with _ | _ <;> simp [h]
  constructor
  · unfold aggregate_intentions
    rcases he : l.isEmpty with _ | _
    · rcases hef : (l.filter hasEmail).isEmpty with _ | _
      · simp only [Bool.false_eq_true, if_false]
        rw [hkeys]
        exact List.map_congr_left fun k _ => by rw [hgroups]
      · have hnil : l.filter hasEmail = [] := List.isEmpty_iff.mp hef
        simp only [if_true]
        have : emailKeys l = [] := by
          unfold emailKeys
          rw [hnil]
          rfl
        rw [this]
        rfl
    · have : l = [] := List.isEmpty_iff.mp he
      subst this
      rfl
  · intro hall
    have hnil : l.filter hasEmail = [] := by
      rw [List.filter_eq_nil_iff]
      intro r hr
      simp [hasEmail, hall r hr]
    unfold aggregate_intentions
    rcases he : l.isEmpty with _ | _
    · simp only [Bool.false_eq_true, if_false]
      have : emailKeys l = [] := by
        unfold emailKeys
        rw [hnil]
        rfl
      rw [this]
      rfl
    · rfl

/-- C3: a contact produced by the aggregator carries the event name
"appointmentMade" precisely when some record of its group is of
appointment kind, and "appointmentIntention" precisely otherwise. -/
theorem aggregate_classification (l : List BufferedIntention) (c : ProcessedContact)
    (hc : c ∈ aggregate_intentions l) :
    (c.event_name = "appointmentMade" ↔
      ∃ r ∈ l, r.email ≠ "" ∧ normKey r.email = c.email
        ∧ r.intention_type = IntentionType.appointment)
    ∧ (c.event_name = "appointmentIntention" ↔
      ¬ ∃ r ∈ l, r.email ≠ "" ∧ normKey r.email = c.email
        ∧ r.intention_type = IntentionType.appointment) := by
  rcases mem_aggregate.mp hc with ⟨k, hk, hck⟩
  have hmail : c.email = k := by
    rw [hck]
    exact mkContact_email k _
  have hexch : (∃ r ∈ groupFor l k, r.intention_type = IntentionType.appointment) ↔
      (∃ r ∈ l, r.email ≠ "" ∧ normKey r.email = c.email
        ∧ r.intention_type = IntentionType.appointment) := by
    rw [hmail]
    constructor
    · rintro ⟨r, hr, hty⟩
      rcases mem_groupFor.mp hr with ⟨hrl, hne, hkey⟩
      exact ⟨r, hrl, hne, hkey, hty⟩
    · rintro ⟨r, hrl, hne, hkey, hty⟩
      exact ⟨r, mem_groupFor.mpr ⟨hrl, hne, hkey⟩, hty⟩
  have hevent : c.event_name =
      (if ((groupFor l k).filter
          (fun r => r.intention_type == IntentionType.appointment)).length > 0
        then "appointmentMade" else "appointmentIntention") := by
    rw [hck]
    rfl
  rcases hlen : ((groupFor l k).filter
      (fun r => r.intention_type == IntentionType.appointment)).length with _ | n
  · have hnoex : ¬ ∃ r ∈ groupFor l k,
        r.intention_type = IntentionType.appointment := by
      rintro ⟨r, hr, hty⟩
      have : r ∈ (groupFor l k).filter
          (fun r => r.intention_type == IntentionType.appointment) :=
        List.mem_filter.mpr ⟨hr, by simp [hty]⟩
      have hpos : 0 < ((groupFor l k).filter
          (fun r => r.intention_type == IntentionType.appointment)).length :=
        List.length_pos.mpr (by intro hnil; rw [hnil] at this; simp at this)
      omega
    rw [hlen] at hevent
    simp only [Nat.lt_irrefl, if_false] at hevent
    constructor
    · rw [hevent]
      constructor
      · intro habs
        exact absurd habs (by decide)
      · intro hex
        exact absurd (hexch.mpr hex) hnoex
    · rw [hevent]
      simp only [true_iff]
      intro hex
      exact absurd (hexch.mpr hex) hnoex
  · have hex : ∃ r ∈ groupFor l k, r.intention_type = IntentionType.appointment := by
      have hne : (groupFor l k).filter
          (fun r => r.intention_type == IntentionType.appointment) ≠ [] := by
        intro hnil
        rw [hnil] at hlen
        simp at hlen
      rcases List.exists_mem_of_ne_nil _ hne with ⟨r, hr⟩
      have := List.mem_filter.mp hr
      exact ⟨r, this.1, by simpa using this.2⟩
    rw [hlen] at hevent
    simp only [Nat.succ_pos, if_true] at hevent
    constructor
    · rw [hevent]
      simp only [true_iff]
      exact hexch.mp hex
    · rw [hevent]
      constructor
      · intro habs
        exact absurd habs (by decide)
      · intro hnex
        exact absurd (hexch.mp hex) hnex

/-- C3 witness: the classification at a concrete single-appointment
input. -/
theorem aggregate_classification_witness :
    ((mkContact "a@x.com" (groupFor [sampleAppt] "a@x.com")).event_name
        = "appointmentMade" ↔
      ∃ r ∈ [sampleAppt], r.email ≠ ""
        ∧ normKey r.email = (mkContact "a@x.com" (groupFor [sampleAppt] "a@x.com")).email
        ∧ r.intention_type = IntentionType.appointment)
    ∧ ((mkContact "a@x.com" (groupFor [sampleAppt] "a@x.com")).event_name
        = "appointmentIntention" ↔
      ¬ ∃ r ∈ [sampleAppt], r.email ≠ ""
        ∧ normKey r.email = (mkContact "a@x.com" (groupFor [sampleAppt] "a@x.com")).email
        ∧ r.intention_type = IntentionType.appointment) :=
  aggregate_classification [sampleAppt]
    (mkContact "a@x.com" (groupFor [sampleAppt] "a@x.com")) (by decide)

lemma aggregate_map_email (l : List BufferedIntention) :
    (aggregate_intentions l).map (fun c => c.email) = emailKeys l := by
  unfold aggregate_intentions
  rcases he : l.isEmpty with _ | _
  · simp only [Bool.false_eq_true, if_false]
    rw [List.map_map]
    have hfun : ((fun c => c.email) ∘ fun k => mkContact k (groupFor l k)) =
        fun k => k := by
      funext k
      exact mkContact_email k _
    rw [hfun]
    simp
  · have : l = [] := List.isEmpty_iff.mp he
    subst this
    simp [emailKeys, firstOccurrences]

/-- C4: the aggregator yields exactly one contact per distinct
normalised identity key of an input whose records all carry a non-empty
email — the emitted keys are duplicate-free and are exactly the
normalised keys present — and each contact's two counts equal the
number of its group's records of each kind; the empty input yields the
empty output. -/
theorem aggregate_grouping (l : List BufferedIntention)
    (h : ∀ r ∈ l, r.email ≠ "") :
    aggregate_intentions ([] : List BufferedIntention) = []
    ∧ ((aggregate_intentions l).map (fun c => c.email)).Nodup
    ∧ (∀ k, k ∈ (aggregate_intentions l).map (fun c => c.email) ↔
        ∃ r ∈ l, normKey r.email = k)
    ∧ ∀ c ∈ aggregate_intentions l,
        c.intention_count = (l.filter fun r =>
          normKey r.email == c.email
            && r.intention_type == IntentionType.intention).length
        ∧ c.appointment_count = (l.filter fun r =>
          normKey r.email == c.email
            && r.intention_type == IntentionType.appointment).length := by
  refine ⟨rfl, ?_, ?_, ?_⟩
  · rw [aggregate_map_email]
    exact nodup_firstOccurrences _
  · intro k
    rw [aggregate_map_email, mem_emailKeys]
    constructor
    · rintro ⟨r, hr, _, hk⟩
      exact ⟨r, hr, hk⟩
    · rintro ⟨r, hr, hk⟩
      exact ⟨r, hr, h r hr, hk⟩
  · intro c hc
    rcases mem_aggregate.mp hc with ⟨k, hk, hck⟩
    have hmail : c.email = k := by
      rw [hck]
      exact mkContact_email k _
    have hgroup : ∀ (q : BufferedIntention → Bool),
        (groupFor l k).filter q = l.filter (fun r => normKey r.email == k && q r) := by
      intro q
      unfold groupFor
      rw [List.filter_filter]
      exact List.filter_congr fun r hr => by
        have : hasEmail r = true := by simp [hasEmail, h r hr]
        rw [this]
        simp [Bool.and_comm]
    constructor
    · have : c.intention_count = ((groupFor l k).filter
          (fun r => r.intention_type == IntentionType.intention)).length := by
        rw [hck]
        rfl
      rw [this, hgroup, hmail]
    · have : c.appointment_count = ((groupFor l k).filter
          (fun r => r.intention_type == IntentionType.appointment)).length := by
        rw [hck]
        rfl
      rw [this, hgroup, hmail]

/-- C4 witness: grouping and counts at a concrete two-record input whose
emails differ only in case. -/
theorem aggregate_grouping_witness :
    aggregate_intentions ([] : List BufferedIntention) = []
    ∧ ((aggregate_intentions [samplePhoneRec, sampleUpperRec]).map
        (fun c => c.email)).Nodup
    ∧ (∀ k, k ∈ (aggregate_intentions [samplePhoneRec, sampleUpperRec]).map
          (fun c => c.email) ↔
        ∃ r ∈ [samplePhoneRec, sampleUpperRec], normKey r.email = k)
    ∧ ∀ c ∈ aggregate_intentions [samplePhoneRec, sampleUpperRec],
        c.intention_count = ([samplePhoneRec, sampleUpperRec].filter fun r =>
          normKey r.email == c.email
            && r.intention_type == IntentionType.intention).length
        ∧ c.appointment_count = ([samplePhoneRec, sampleUpperRec].filter fun r =>
          normKey r.email == c.email
            && r.intention_type == IntentionType.appointment).length :=
  aggregate_grouping [samplePhoneRec, sampleUpperRec] (by decide)

lemma find?_split {α : Type} {p : α → Bool} :
    ∀ {l : List α} {b : α}, l.find? p = some b →
      ∃ l1 l2, l = l1 ++ b :: l2 ∧ ∀ a ∈ l1, p a = false := by
  intro l
  induction l with
  | nil => intro b h; simp [List.find?] at h
  | cons x xs ih =>
    intro b h
    rcases hp : p x with _ | _
    · rw [List.find?_cons_of_neg _ (by simp [hp])] at h
      rcases ih h with ⟨l1, l2, heq, hall⟩
      refine ⟨x :: l1, l2, by rw [heq]; rfl, ?_⟩
      intro a ha
      rcases List.mem_cons.mp ha with rfl | ha2
      · exact hp
      · exact hall a ha2
    · rw [List.find?_cons_of_pos _ hp] at h
      have : x = b := by injection h
      subst this
      exact ⟨[], xs, rfl, by simp⟩

lemma pairwise_le_of_group {l g : List BufferedIntention}
    (hsorted : l.Pairwise fun a b => creationKey a ≤ creationKey b)
    (hsub : g.Sublist l) :
    g.Pairwise fun a b => creationKey a ≤ creationKey b :=
  List.Pairwise.sublist hsub hsorted

lemma first_non_empty_resolves {g : List BufferedIntention}
    {f : BufferedIntention → Option String}
    (hs : g.Pairwise fun a b => creationKey a ≤ creationKey b) :
    resolvedFrom g f (first_non_empty g f) := by
  unfold first_non_empty
  rcases hfind : g.reverse.find? (fun r => truthyStr (f r)) with _ | r
  · left
    refine ⟨rfl, ?_⟩
    intro r hr
    have := List.find?_eq_none.mp hfind r (List.mem_reverse.mpr hr)
    simpa using this
  · right
    have hrg : r ∈ g := List.mem_reverse.mp (List.mem_of_find?_eq_some hfind)
    have hrt0 := List.find?_some hfind
    have hrt : truthyStr (f r) = true := by simpa using hrt0
    refine ⟨r, hrg, hrt, rfl, ?_⟩
    rcases find?_split hfind with ⟨l1, l2, heq, hall⟩
    have hg : g = l2.reverse ++ r :: l1.reverse := by
      have : g = g.reverse.reverse := by simp
      rw [this, heq]
      simp
    intro r2 hr2 ht2
    rw [hg] at hr2
    rcases List.mem_append.mp hr2 with h2 | h2
    · have hpw := hs
      rw [hg] at hpw
      rcases List.pairwise_append.mp hpw with ⟨_, _, hcross⟩
      exact hcross r2 h2 r (List.mem_cons_self _ _)
    · rcases List.mem_cons.mp h2 with rfl | h3
      · exact Nat.le_refl _
      · have : truthyStr (f r2) = false :=
          hall r2 (List.mem_reverse.mp h3)
        rw [this] at ht2
        exact absurd ht2 (by simp)

lemma aggregate_contact_fields {l : List BufferedIntention}
    {c : ProcessedContact} (hc : c ∈ aggregate_intentions l) :
    c.first_name = first_non_empty (groupFor l c.email) (fun r => r.first_name)
    ∧ c.last_name = first_non_empty (groupFor l c.email) (fun r => r.last_name)
    ∧ c.phone = first_non_empty (groupFor l c.email) (fun r => r.phone)
    ∧ c.campaign_source
        = first_non_empty (groupFor l c.email) (fun r => r.campaign_source) := by
  rcases mem_aggregate.mp hc with ⟨k, hk, hck⟩
  have hmail : c.email = k := by
    rw [hck]
    exact mkContact_email k _
  rw [hmail, hck]
  exact ⟨rfl, rfl, rfl, rfl⟩

/-- C5: for an input in creation-ascending order, each of the
first-name, last-name, phone and source fields of an emitted contact is
resolved independently: it is absent when no record of the contact's
group carries a non-empty value, and otherwise equals the value of a
group record with maximal creation timestamp among those carrying one. -/
theorem aggregate_field_resolution (l : List BufferedIntention)
    (c : ProcessedContact)
    (hsorted : l.Pairwise fun a b => creationKey a ≤ creationKey b)
    (hc : c ∈ aggregate_intentions l) :
    resolvedFrom (groupFor l c.email) (fun r => r.first_name) c.first_name
    ∧ resolvedFrom (groupFor l c.email) (fun r => r.last_name) c.last_name
    ∧ resolvedFrom (groupFor l c.email) (fun r => r.phone) c.phone
    ∧ resolvedFrom (groupFor l c.email) (fun r => r.campaign_source)
        c.campaign_source := by
  have hgs : (groupFor l c.email).Pairwise
      fun a b => creationKey a ≤ creationKey b :=
    pairwise_le_of_group hsorted (List.filter_sublist l)
  rcases aggregate_contact_fields hc with ⟨h1, h2, h3, h4⟩
  refine ⟨?_, ?_, ?_, ?_⟩
  · rw [h1]; exact first_non_empty_resolves hgs
  · rw [h2]; exact first_non_empty_resolves hgs
  · rw [h3]; exact first_non_empty_resolves hgs
  · rw [h4]; exact first_non_empty_resolves hgs

/-- C5 witness: an older phone-only record and a newer name-only record
for the same identity resolve into one contact carrying both fields. -/
theorem aggregate_field_resolution_witness :
    resolvedFrom (groupFor [samplePhoneRec, sampleNameRec]
        (mkContact "a@x.com"
          (groupFor [samplePhoneRec, sampleNameRec] "a@x.com")).email)
      (fun r => r.first_name)
      (mkContact "a@x.com"
        (groupFor [samplePhoneRec, sampleNameRec] "a@x.com")).first_name
    ∧ resolvedFrom (groupFor [samplePhoneRec, sampleNameRec]
        (mkContact "a@x.com"
          (groupFor [samplePhoneRec, sampleNameRec] "a@x.com")).email)
      (fun r => r.last_name)
      (mkContact "a@x.com"
        (groupFor [samplePhoneRec, sampleNameRec] "a@x.com")).last_name
    ∧ resolvedFrom (groupFor [samplePhoneRec, sampleNameRec]
        (mkContact "a@x.com"
          (groupFor [samplePhoneRec, sampleNameRec] "a@x.com")).email)
      (fun r => r.phone)
      (mkContact "a@x.com"
        (groupFor [samplePhoneRec, sampleNameRec] "a@x.com")).phone
    ∧ resolvedFrom (groupFor [samplePhoneRec, sampleNameRec]
        (mkContact "a@x.com"
          (groupFor [samplePhoneRec, sampleNameRec] "a@x.com")).email)
      (fun r => r.campaign_source)
      (mkContact "a@x.com"
        (groupFor [samplePhoneRec, sampleNameRec] "a@x.com")).campaign_source :=
  aggregate_field_resolution [samplePhoneRec, sampleNameRec]
    (mkContact "a@x.com" (groupFor [samplePhoneRec, sampleNameRec] "a@x.com"))
    (by decide) (by decide)

lemma optLt_trans {a b c : Option Nat} (h1 : optLt a b = true)
    (h2 : optLt b c = true) : optLt a c = true := by
  rcases a with _ | x <;> rcases b with _ | y <;> rcases c with _ | z <;>
    simp [optLt] at * <;> omega

lemma optLt_cross {a b c : Option Nat} (h1 : optLt a b = false)
    (h2 : optLt a c = true) : optLt b c = true := by
  rcases a with _ | x <;> rcases b with _ | y <;> rcases c with _ | z <;>
    simp [optLt] at * <;> omega

lemma pyMaxAux_split (key : BufferedIntention → Option Nat) :
    ∀ (xs : List BufferedIntention) (best : BufferedIntention),
      ∃ g1 g2, best :: xs = g1 ++ pyMaxAux key best xs :: g2
        ∧ (∀ a ∈ g1, optLt (key a) (key (pyMaxAux key best xs)) = true)
        ∧ (∀ b ∈ g2, optLt (key (pyMaxAux key best xs)) (key b) = false) := by
  intro xs
  induction xs with
  | nil =>
    intro best
    exact ⟨[], [], rfl, by simp, by simp⟩
  | cons x xs ih =>
    intro best
    rcases hbx : optLt (key best) (key x) with _ | _
    · have hstep : pyMaxAux key best (x :: xs) = pyMaxAux key best xs := by
        show pyMaxAux key (if optLt (key best) (key x) = true then x else best) xs
          = pyMaxAux key best xs
        rw [hbx]
        simp
      rcases ih best with ⟨g1, g2, heq, h1, h2⟩
      rcases g1 with _ | ⟨a, g1t⟩
      · rw [List.nil_append, List.cons.injEq] at heq
        refine ⟨[], x :: xs, ?_, by simp, ?_⟩
        · rw [hstep, List.nil_append, ← heq.1]
        · intro b hb
          rw [hstep, ← heq.1]
          rcases List.mem_cons.mp hb with rfl | hb2
          · exact hbx
          · have := h2 b (heq.2 ▸ hb2)
            rw [← heq.1] at this
            exact this
      · rw [List.cons_append, List.cons.injEq] at heq
        have hbm : optLt (key best) (key (pyMaxAux key best xs)) = true := by
          have := h1 a (List.mem_cons_self _ _)
          rw [← heq.1] at this
          exact this
        refine ⟨best :: x :: g1t, g2, ?_, ?_, by rw [hstep]; exact h2⟩
        · rw [hstep, List.cons_append, List.cons_append, ← heq.2]
        · intro a2 ha2
          rw [hstep]
          rcases List.mem_cons.mp ha2 with rfl | ha3
          · exact hbm
          rcases List.mem_cons.mp ha3 with rfl | ha4
          · exact optLt_cross hbx hbm
          · exact h1 a2 (List.mem_cons.mpr (Or.inr ha4))
    · have hstep : pyMaxAux key best (x :: xs) = pyMaxAux key x xs := by
        show pyMaxAux key (if optLt (key best) (key x) = true then x else best) xs
          = pyMaxAux key x xs
        rw [hbx]
        simp
      rcases ih x with ⟨g1, g2, heq, h1, h2⟩
      have hbm : optLt (key best) (key (pyMaxAux key x xs)) = true := by
        rcases g1 with _ | ⟨a, g1t⟩
        · rw [List.nil_append, List.cons.injEq] at heq
          rw [← heq.1]
          exact hbx
        · rw [List.cons_append, List.cons.injEq] at heq
          have hxm := h1 a (List.mem_cons_self _ _)
          rw [← heq.1] at hxm
          exact optLt_trans hbx hxm
      refine ⟨best :: g1, g2, ?_, ?_, by rw [hstep]; exact h2⟩
      · rw [hstep, List.cons_append, ← heq]
      · intro a ha
        rw [hstep]
        rcases List.mem_cons.mp ha with rfl | ha2
        · exact hbm
        · exact h1 a ha2

lemma mem_of_getLast? {α : Type} :
    ∀ {l : List α} {a : α}, l.getLast? = some a → a ∈ l := by
  intro l
  induction l with
  | nil => intro a h; simp at h
  | cons x xs ih =>
    intro a h
    rcases xs with _ | ⟨y, ys⟩
    · simp at h
      simp [h]
    · rw [List.getLast?_cons_cons] at h
      exact List.mem_cons.mpr (Or.inr (ih h))

lemma sorted_le_getLast {l : List BufferedIntention} {r : BufferedIntention}
    (hs : l.Pairwise fun a b => creationKey a ≤ creationKey b)
    (h : l.getLast? = some r) : ∀ a ∈ l, creationKey a ≤ creationKey r := by
  induction l with
  | nil => simp at h
  | cons x xs ih =>
    intro a ha
    rcases xs with _ | ⟨y, ys⟩
    · simp at h
      rcases List.mem_singleton.mp ha with rfl
      rw [h]
    · rw [List.getLast?_cons_cons] at h
      have hrmem : r ∈ y :: ys := mem_of_getLast? h
      rcases List.mem_cons.mp ha with rfl | ha2
      · exact (List.pairwise_cons.mp hs).1 r hrmem
      · exact ih (List.pairwise_cons.mp hs).2 h a ha2

lemma sortKey_eq_creationKey {r : BufferedIntention}
    (h : r.created_at.isSome = true) : sortKey r = some (creationKey r) := by
  rcases hr : r.created_at with _ | t
  · rw [hr] at h
    simp at h
  · unfold sortKey creationKey
    rw [hr]
    rfl

lemma mkContact_detail (k : String) (g : List BufferedIntention) :
    detailFieldsEq (mkContact k g)
      ((g.filter fun r => r.intention_type == IntentionType.appointment).getLast?.getD
        ((pyMax sortKey g).getD default)) :=
  ⟨rfl, rfl, rfl, rfl, rfl, rfl, rfl⟩

/-- C6 (amended): the business-context fields of a contact come from the
last appointment-kind record of its group in input order — which, for a
creation-ascending input, is an appointment record of maximal creation
timestamp (later record wins a tie) — when the group has one; otherwise
they come from the first record of the group attaining the maximal
creation timestamp, so a tie between equal timestamps is broken in
favour of the EARLIER record, not the later one as originally claimed. -/
theorem aggregate_detail_record (l : List BufferedIntention)
    (c : ProcessedContact)
    (hsorted : l.Pairwise fun a b => creationKey a ≤ creationKey b)
    (hsome : ∀ r ∈ l, r.created_at.isSome = true)
    (hc : c ∈ aggregate_intentions l) :
    (((groupFor l c.email).filter
        (fun r => r.intention_type == IntentionType.appointment)) ≠ []
      → ∃ r, ((groupFor l c.email).filter
            (fun r => r.intention_type == IntentionType.appointment)).getLast?
              = some r
          ∧ detailFieldsEq c r
          ∧ ∀ a ∈ (groupFor l c.email).filter
              (fun r => r.intention_type == IntentionType.appointment),
              creationKey a ≤ creationKey r)
    ∧ (((groupFor l c.email).filter
        (fun r => r.intention_type == IntentionType.appointment)) = []
      → ∃ g1 g2 r, groupFor l c.email = g1 ++ r :: g2
          ∧ detailFieldsEq c r
          ∧ (∀ a ∈ g1, creationKey a < creationKey r)
          ∧ (∀ b ∈ g2, creationKey b ≤ creationKey r)) := by
  rcases mem_aggregate.mp hc with ⟨k, hk, hck⟩
  have hmail : c.email = k := by
    rw [hck]
    exact mkContact_email k _
  have hgsub : (groupFor l k).Sublist l := List.filter_sublist l
  have hgsorted : (groupFor l k).Pairwise
      fun a b => creationKey a ≤ creationKey b :=
    List.Pairwise.sublist hgsub hsorted
  have hgsome : ∀ r ∈ groupFor l k, r.created_at.isSome = true := fun r hr =>
    hsome r (hgsub.mem hr)
  rw [hmail]
  constructor
  · intro hne
    have hlast : ((groupFor l k).filter
        (fun r => r.intention_type == IntentionType.appointment)).getLast?.isSome
          = true := List.getLast?_isSome.mpr hne
    rcases Option.isSome_iff_exists.mp hlast with ⟨r, hr⟩
    refine ⟨r, hr, ?_, ?_⟩
    · have := mkContact_detail k (groupFor l k)
      rw [hr] at this
      simp only [Option.getD_some] at this
      rw [hck]
      exact this
    · have hasorted : ((groupFor l k).filter
          (fun r => r.intention_type == IntentionType.appointment)).Pairwise
            fun a b => creationKey a ≤ creationKey b :=
        List.Pairwise.sublist (List.filter_sublist _) hgsorted
      exact sorted_le_getLast hasorted hr
  · intro hnil
    have hgne : groupFor l k ≠ [] := groupFor_self hk
    obtain ⟨x, gt, hg⟩ : ∃ x gt, groupFor l k = x :: gt := by
      rcases hgl : groupFor l k with _ | ⟨a, b⟩
      · exact absurd hgl hgne
      · exact ⟨a, b, rfl⟩
    have hmax : pyMax sortKey (groupFor l k) = some (pyMaxAux sortKey x gt) := by
      rw [hg]
      rfl
    rcases pyMaxAux_split sortKey gt x with ⟨g1, g2, heq, h1, h2⟩
    set m := pyMaxAux sortKey x gt with hm
    have hdecomp : groupFor l k = g1 ++ m :: g2 := by
      rw [hg, ← heq]
    have hmmem : m ∈ groupFor l k := by
      rw [hdecomp]
      exact List.mem_append.mpr (Or.inr (List.mem_cons_self _ _))
    have hmsk : sortKey m = some (creationKey m) :=
      sortKey_eq_creationKey (hgsome m hmmem)
    refine ⟨g1, g2, m, hdecomp, ?_, ?_, ?_⟩
    · have hdet := mkContact_detail k (groupFor l k)
      rw [hnil] at hdet
      simp only [List.getLast?_nil, Option.getD_none] at hdet
      rw [hmax] at hdet
      simp only [Option.getD_some] at hdet
      rw [hck]
      exact hdet
    · intro a ha
      have hamem : a ∈ groupFor l k := by
        rw [hdecomp]
        exact List.mem_append.mpr (Or.inl ha)
      have hask : sortKey a = some (creationKey a) :=
        sortKey_eq_creationKey (hgsome a hamem)
      have := h1 a ha
      rw [hask, hmsk] at this
      simpa [optLt] using this
    · intro b hb
      have hbmem : b ∈ groupFor l k := by
        rw [hdecomp]
        exact List.mem_append.mpr (Or.inr (List.mem_cons.mpr (Or.inr hb)))
      have hbsk : sortKey b = some (creationKey b) :=
        sortKey_eq_creationKey (hgsome b hbmem)
      have := h2 b hb
      rw [hbsk, hmsk] at this
      simp [optLt] at this
      omega

/-- C6 counterexample: two intention-kind records of the same identity
with EQUAL creation timestamps, given in (non-strictly) creation-
ascending input order.  The group has no appointment record, so the
claim predicts the business-context fields of the record appearing later
in input order (salon "S2"); the code's Python `max` keeps the first
maximal record, so the contact carries salon "S1". -/
theorem aggregate_detail_tie_cex :
    cexTieR1.created_at = cexTieR2.created_at
    ∧ cexTieR1.intention_type = IntentionType.intention
    ∧ cexTieR2.intention_type = IntentionType.intention
    ∧ cexTieR1.salon_id = some "S1"
    ∧ cexTieR2.salon_id = some "S2"
    ∧ normKey cexTieR1.email = normKey cexTieR2.email
    ∧ (aggregate_intentions [cexTieR1, cexTieR2]).map (fun c => c.salon_id)
        = [some "S1"] := by
  refine ⟨rfl, rfl, rfl, rfl, rfl, rfl, ?_⟩
  decide

/-- C6 amended witness: the amended selection rule at a concrete
two-record no-appointment group with strictly ascending timestamps. -/
theorem aggregate_detail_record_witness :
    (((groupFor [sampleAscR1, sampleAscR2]
        (mkContact "a@x.com"
          (groupFor [sampleAscR1, sampleAscR2] "a@x.com")).email).filter
        (fun r => r.intention_type == IntentionType.appointment)) ≠ []
      → ∃ r, ((groupFor [sampleAscR1, sampleAscR2]
            (mkContact "a@x.com"
              (groupFor [sampleAscR1, sampleAscR2] "a@x.com")).email).filter
            (fun r => r.intention_type == IntentionType.appointment)).getLast?
              = some r
          ∧ detailFieldsEq (mkContact "a@x.com"
              (groupFor [sampleAscR1, sampleAscR2] "a@x.com")) r
          ∧ ∀ a ∈ (groupFor [sampleAscR1, sampleAscR2]
              (mkContact "a@x.com"
                (groupFor [sampleAscR1, sampleAscR2] "a@x.com")).email).filter
              (fun r => r.intention_type == IntentionType.appointment),
              creationKey a ≤ creationKey r)
    ∧ (((groupFor [sampleAscR1, sampleAscR2]
        (mkContact "a@x.com"
          (groupFor [sampleAscR1, sampleAscR2] "a@x.com")).email).filter
        (fun r => r.intention_type == IntentionType.appointment)) = []
      → ∃ g1 g2 r, groupFor [sampleAscR1, sampleAscR2]
            (mkContact "a@x.com"
              (groupFor [sampleAscR1, sampleAscR2] "a@x.com")).email
              = g1 ++ r :: g2
          ∧ detailFieldsEq (mkContact "a@x.com"
              (groupFor [sampleAscR1, sampleAscR2] "a@x.com")) r
          ∧ (∀ a ∈ g1, creationKey a < creationKey r)
          ∧ (∀ b ∈ g2, creationKey b ≤ creationKey r)) :=
  aggregate_detail_record [sampleAscR1, sampleAscR2]
    (mkContact "a@x.com" (groupFor [sampleAscR1, sampleAscR2] "a@x.com"))
    (by decide) (by decide) (by decide)
